import Mathlib

/-!
Verification of the SIDM histogram registry (`src/sidm/definitions/hists.py`)
against its natural-language specification.

The repository source under `src/` contains only the declarative registry
`hist_defs`: a dictionary mapping histogram names to `Histogram` objects, each
bundling a list of axes (a binning specification plus an extraction function
`lambda objs, mask: ...`) and an optional per-histogram event-mask predicate
`evt_mask`.  The behavioural components the registry relies on — the fill /
alignment engine (`sidm.tools.histogram`), the `dR` nearest-match utility
(`sidm.tools.utilities`), and the binning semantics of `hist.axis.Regular`,
`hist.axis.Integer` and `hist.axis.IntCategory` — are not present under `src/`;
those are modelled from the specification (each such definition's doc comment
says so explicitly).  The registry entries themselves (bin counts, ranges,
category lists, extraction shapes, mask predicates) are translated directly
from `hists.py`.

Conventions of the embedding:
* Physics quantities are rationals (`ℚ`); a missing / not-a-number value
  (the `UndefinedMatch` sentinel of §7 of the spec) is `Option.none`.
* An event batch is a `List Event`; every collection of an event is a plain
  list of objects, so ragged awkward arrays become `List (List _)`.
* Fallible computations (index-out-of-range in `objs[coll][mask, k]`,
  mismatched ragged lengths) return `Except String _`.
* `hist.axis.Regular` bounds that are irrational in the source (`±math.pi`)
  are kept as parameters of the corresponding embedded histogram.
-/

set_option maxRecDepth 4000

namespace SIDM

/-- One reconstructed or generator-level object, with the fixed field set the
registry's extraction functions touch (`.p4.pt`, `.p4.eta`, `.p4.phi`,
`.p4.energy`, `.pfIsolation05`, `.charge`, `["type"]`). -/
structure Obj where
  pt : ℚ
  eta : ℚ
  phi : ℚ
  energy : ℚ
  pfIsolation05 : ℚ
  charge : ℤ
  typ : ℤ
deriving DecidableEq, Repr

/-- A convenience constructor: an object whose only interesting field is `pt`. -/
def mkPt (p : ℚ) : Obj := ⟨p, 0, 0, 0, 0, 0, 0⟩

/-- One event: the named per-event object collections referenced by the
registry entries under study (`objs["pvs"]`, `objs["electrons"]`,
`objs["ljs"]`, `objs["genAs"]`, `objs["ljsources"]`). -/
structure Event where
  pvs : List Obj
  electrons : List Obj
  ljs : List Obj
  genAs : List Obj
  ljsources : List Obj
deriving DecidableEq, Repr

/-- An event with all collections empty, used to build concrete test events. -/
def emptyEvent : Event := ⟨[], [], [], [], []⟩

/-! ### Binning specifications

Modelled from the spec (§4.1): the binning classes `hist.axis.Regular`,
`hist.axis.Integer`, `hist.axis.IntCategory` used by the registry are library
code absent from `src/`; the spec fixes their contract: continuous = `n_bins`
equal-width bins over `[lo, hi)` with values `< lo` to underflow and `≥ hi`
to overflow; discrete = unit-width integer bins with the same flow policy;
category = one bin per listed value plus an "other" bin. -/

/-- A bin index: a regular bin, or one of the two flow bins. -/
inductive BinIdx where
  | underflow
  | bin (i : ℕ)
  | overflow
deriving DecidableEq, Repr

/-- Modelled from the spec: `hist.axis.Regular(n, lo, hi)` bin lookup —
`n` equal-width bins over `[lo, hi)`, underflow below `lo`, overflow at and
above `hi`. -/
def regularBin (n : ℕ) (lo hi : ℚ) (v : ℚ) : BinIdx :=
  if v < lo then .underflow
  else if hi ≤ v then .overflow
  else .bin (⌊(v - lo) * n / (hi - lo)⌋).toNat

/-- Modelled from the spec: `hist.axis.Integer(lo, hi)` bin lookup —
unit-width integer bins over `[lo, hi)`, same flow policy as `regularBin`. -/
def integerBin (lo hi : ℤ) (v : ℚ) : BinIdx :=
  if v < (lo : ℚ) then .underflow
  else if (hi : ℚ) ≤ v then .overflow
  else .bin (⌊v⌋ - lo).toNat

/-- Position of `v` in the declared category list (first occurrence);
`vals.length` when absent — the helper behind `categoryBin`. -/
def catIndex (v : ℤ) : List ℤ → ℕ
  | [] => 0
  | x :: xs => if x = v then 0 else catIndex v xs + 1

/-- Modelled from the spec: `hist.axis.IntCategory(vals)` bin lookup — each
declared value gets its own bin (its position in the list); every other value
goes to the single "other" bin, index `vals.length`. -/
def categoryBin (vals : List ℤ) (v : ℤ) : ℕ :=
  if v ∈ vals then catIndex v vals else vals.length

/-- A binning specification, one of the three variants used in the registry. -/
inductive Binning where
  | regular (n : ℕ) (lo hi : ℚ)
  | integer (lo hi : ℤ)
  | intCategory (vals : List ℤ)
deriving DecidableEq, Repr

/-- Bin lookup for an optional value: the not-a-number sentinel (`none`,
spec §7 `UndefinedMatch`) is routed to the flow handling (overflow bin),
never dropped and never an error. -/
def binIndex : Binning → Option ℚ → BinIdx
  | _, none => .overflow
  | .regular n lo hi, some v => regularBin n lo hi v
  | .integer lo hi, some v => integerBin lo hi v
  | .intCategory vals, some v => .bin (categoryBin vals ⌊v⌋)

/-! ### Axes, event masks and the fill engine

Modelled from the spec (§4.2–§4.4): the engine `sidm.tools.histogram` is not
under `src/`.  An axis extraction function is one of the three shapes of §4.2:
scalar-per-event, ragged-per-sub-object, or a mask-dependent selection
`objs[coll][mask, k]` (apply the event mask, then take the `k`-th object of
each surviving event — an `IndexError` when one of them has at most `k`
objects).  Per passing event the engine aligns the axis values (§4.3): all
ragged axes must agree on the event's inner length, scalars are broadcast,
and a length mismatch is a fail-fast configuration error. -/

/-- The raw value an axis produces for one (passing) event: one value, or
one value per sub-object. -/
inductive RawVal where
  | one (v : Option ℚ)
  | many (vs : List (Option ℚ))
deriving DecidableEq, Repr

/-- An axis extraction function, per event (the batch-level awkward
expressions of the registry are elementwise, hence per-event). -/
inductive AxisFn where
  | scalar (f : Event → Option ℚ)
  | ragged (f : Event → List (Option ℚ))
  | maskSel (k : ℕ) (f : Event → List (Option ℚ))

/-- Explicit bind for `Except String`, kept as a plain match so proofs can
unfold it. -/
def exBind : Except String α → (α → Except String β) → Except String β
  | .error m, _ => .error m
  | .ok a, f => f a

/-- Evaluate one axis on one passing event.  `maskSel k f` mirrors
`objs[coll][mask, k]`: the event already passed the mask, so take object `k`
of `f e`, failing with an `IndexError` when the event has at most `k`
objects (spec §4.2: a caller error that must raise, never a placeholder). -/
def evalAxis : AxisFn → Event → Except String RawVal
  | .scalar f, e => .ok (.one (f e))
  | .ragged f, e => .ok (.many (f e))
  | .maskSel k f, e =>
    match (f e).get? k with
    | some v => .ok (.one v)
    | none => .error "IndexError"

/-- Evaluate all axes of a histogram on one passing event. -/
def evalAxes (e : Event) : List AxisFn → Except String (List RawVal)
  | [] => .ok []
  | a :: rest =>
    exBind (evalAxis a e) fun r =>
    exBind (evalAxes e rest) fun rs => .ok (r :: rs)

/-- The inner lengths of the ragged axis values of one event. -/
def raggedLens (rs : List RawVal) : List ℕ :=
  rs.filterMap fun r =>
    match r with
    | .one _ => none
    | .many vs => some vs.length

/-- The fill granularity of one event (spec §4.3 step 2): `1` when every axis
is one-value-per-event, otherwise the common ragged inner length. -/
def granularity (rs : List RawVal) : ℕ :=
  match raggedLens rs with
  | [] => 1
  | L :: _ => L

/-- Align the axis values of one event (spec §4.3): all ragged axes must have
the same inner length (else a fail-fast configuration error); single values
are broadcast to that length. -/
def alignEvent (rs : List RawVal) : Except String (List (List (Option ℚ))) :=
  match raggedLens rs with
  | [] =>
    .ok (rs.map fun r =>
      match r with
      | .one v => [v]
      | .many vs => vs)
  | L :: Ls =>
    if Ls.all fun l => l == L then
      .ok (rs.map fun r =>
        match r with
        | .one v => List.replicate L v
        | .many vs => vs)
    else .error "ConfigurationError: ragged axes with mismatched inner lengths"

/-- An entry of the flat fill vectors: one bin index per axis, and a weight. -/
abbrev Entry : Type := List BinIdx × ℚ

/-- A histogram definition: ordered axes (binning + extraction) and the event
mask predicate (`evt_mask` in the registry; `fun _ => true` when absent). -/
structure Histogram where
  axes : List (Binning × AxisFn)
  evtMask : Event → Bool

/-- Fill contribution of one passing event: evaluate all axes, align, then
emit one entry per position of the event's flat fill vectors. -/
def fillEvent (axes : List (Binning × AxisFn)) (e : Event) (w : ℚ) :
    Except String (List Entry) :=
  exBind (evalAxes e (axes.map fun a => a.2)) fun rs =>
  exBind (alignEvent rs) fun cols =>
  .ok ((List.range (granularity rs)).map fun i =>
    (((axes.map fun a => a.1).zip cols).map fun bc =>
      binIndex bc.1 (bc.2.getD i none), w))

/-- Fill a whole batch (spec §4.2/§4.3): events failing the mask contribute
nothing; the entries of passing events are concatenated in event order. -/
def fillBatch (h : Histogram) (w : ℚ) : List Event → Except String (List Entry)
  | [] => .ok []
  | e :: es =>
    exBind (if h.evtMask e then fillEvent h.axes e w else .ok []) fun ent =>
    exBind (fillBatch h w es) fun rest => .ok (ent ++ rest)

/-! ### Weighted histogram storage

Modelled from the spec (§4.4): each cell holds (sum of weights, sum of
squared weights, entry count); `merge` adds cellwise. -/

/-- An N-dimensional weighted storage, as a function from cell index (one
`BinIdx` per axis) to (sum of weights, sum of squared weights, count). -/
abbrev Storage : Type := List BinIdx → ℚ × ℚ × ℕ

/-- The storage obtained by incrementing an empty storage with a flat list of
entries. -/
def fillStorage (ents : List Entry) : Storage := fun c =>
  (((ents.filter fun en => en.1 = c).map fun en => en.2).sum,
   ((ents.filter fun en => en.1 = c).map fun en => en.2 * en.2).sum,
   (ents.filter fun en => en.1 = c).length)

/-- Cellwise merge of two storages (spec §4.4). -/
def mergeStorage (s t : Storage) : Storage := fun c =>
  ((s c).1 + (t c).1, ((s c).2.1 + (t c).2.1, (s c).2.2 + (t c).2.2))

/-! ### Nearest-match machinery

Modelled from the spec (§4.3, distance/nearest-match axes): the `dR` utility
of `sidm.tools.utilities` and the `nearest` method used by the ratio axes are
not under `src/`.  Per the spec, for each object of the primary collection
the distance to every object of the same event's secondary collection is
computed and the minimum taken — one ragged value per primary sub-object,
never crossing an event boundary.  The pairwise angular-separation metric
itself is kept as a parameter `d` (its formula involves irrational constants
and is outside `src/`). -/

/-- Minimum of a list of rationals; `none` on the empty list (the
`UndefinedMatch` case). -/
def listMinQ : List ℚ → Option ℚ
  | [] => none
  | x :: xs => some (xs.foldl min x)

/-- Modelled from the spec: the per-event `dR` axis value — for each primary
object the minimum pairwise distance `d` to the event's secondary objects. -/
def dREvent (d : Obj → Obj → ℚ) (P S : List Obj) : List (Option ℚ) :=
  P.map fun p => listMinQ (S.map fun s => d p s)

/-- Modelled from the spec: the batch-level `dR` computation, applied
event by event (event-respecting cross product: distances are only taken
within one event). -/
def dRBatch (d : Obj → Obj → ℚ) (Ps Ss : List (List Obj)) :
    List (List (Option ℚ)) :=
  (Ps.zip Ss).map fun es => dREvent d es.1 es.2

/-- Modelled from the spec: the secondary object nearest to `p` under the
metric `d` (first of the minimizers); `none` when the secondary collection
is empty. -/
def nearestObj (d : Obj → Obj → ℚ) (p : Obj) : List Obj → Option Obj
  | [] => none
  | s :: ss => some (ss.foldl (fun best x => if d p x < d p best then x else best) s)

/-! ### Registry entries under study

Each definition below is translated from the corresponding entry of
`hist_defs` in `src/sidm/definitions/hists.py`. -/

/-- `hist_defs["pv_n"]`: `Regular(50, 0, 100)`, value `ak.num(objs["pvs"])`,
no `evt_mask`. -/
def pv_n : Histogram :=
  ⟨[(.regular 50 0 100, .scalar fun e => some (e.pvs.length : ℚ))],
   fun _ => true⟩

/-- `hist_defs["lj0_pt"]`: `Regular(100, 0, 100)`, value
`objs["ljs"][mask, 0].p4.pt`, `evt_mask = ak.num(objs["ljs"]) > 0`. -/
def lj0_pt : Histogram :=
  ⟨[(.regular 100 0 100, .maskSel 0 fun e => e.ljs.map fun o => some o.pt)],
   fun e => 0 < e.ljs.length⟩

/-- `hist_defs["lj1_pt"]`: `Regular(100, 0, 100)`, value
`objs["ljs"][mask, 1].p4.pt`, `evt_mask = ak.num(objs["ljs"]) > 1`. -/
def lj1_pt : Histogram :=
  ⟨[(.regular 100 0 100, .maskSel 1 fun e => e.ljs.map fun o => some o.pt)],
   fun e => 1 < e.ljs.length⟩

/-- `hist_defs["lj0_pfIsolation05"]`: `Regular(80, 0, 0.8)`, value
`objs["ljs"][mask, 0].pfIsolation05`, `evt_mask = ak.num(objs["ljs"]) > 0`. -/
def lj0_pfIsolation05 : Histogram :=
  ⟨[(.regular 80 0 (4/5),
     .maskSel 0 fun e => e.ljs.map fun o => some o.pfIsolation05)],
   fun e => 0 < e.ljs.length⟩

/-- `hist_defs["lj1_pfIsolation05"]`: `Regular(80, 0, 0.8)`, value
`objs["ljs"][mask, 1].pfIsolation05`, `evt_mask = ak.num(objs["ljs"]) > 1`. -/
def lj1_pfIsolation05 : Histogram :=
  ⟨[(.regular 80 0 (4/5),
     .maskSel 1 fun e => e.ljs.map fun o => some o.pfIsolation05)],
   fun e => 1 < e.ljs.length⟩

/-- `hist_defs["electron_eta_phi"]`: two ragged axes over the same collection,
`Regular(50, -3, 3)` on `objs["electrons"].p4.eta` and
`Regular(50, -pi, pi)` on `objs["electrons"].p4.phi`; no `evt_mask`.  The
irrational bounds `±math.pi` are kept as the parameters `pl`, `ph`. -/
def electron_eta_phi (pl ph : ℚ) : Histogram :=
  ⟨[(.regular 50 (-3) 3, .ragged fun e => e.electrons.map fun o => some o.eta),
    (.regular 50 pl ph, .ragged fun e => e.electrons.map fun o => some o.phi)],
   fun _ => true⟩

/-- `hist_defs["lj_genA_ptRatio"]` axis value, per event:
`objs["ljs"].p4.pt / objs["ljs"].p4.nearest(objs["genAs"].p4).pt` — the ratio
of each lepton jet's pt to its nearest dark photon's pt, `none` (the
not-a-number sentinel) when the event has no dark photons. -/
def ptRatioEvent (d : Obj → Obj → ℚ) (e : Event) : List (Option ℚ) :=
  e.ljs.map fun p => (nearestObj d p e.genAs).map fun q => p.pt / q.pt

/-- `hist_defs["lj_genA_ptRatio"]`: `Regular(50, 0, 2.0)` on the
nearest-match pt ratio; no `evt_mask`.  The angular metric is the
parameter `d`. -/
def lj_genA_ptRatio (d : Obj → Obj → ℚ) : Histogram :=
  ⟨[(.regular 50 0 2, .ragged (ptRatioEvent d))], fun _ => true⟩

/-- `hist_defs["electron_lj_dR"]`: `Regular(50, 0, 2*pi)` on
`dR(objs["electrons"].p4, objs["ljs"].p4)`; no `evt_mask`.  The upper bound
`2*math.pi` is kept as the parameter `hi`, the metric as `d`. -/
def electron_lj_dR (d : Obj → Obj → ℚ) (hi : ℚ) : Histogram :=
  ⟨[(.regular 50 0 hi, .ragged fun e => dREvent d e.electrons e.ljs)],
   fun _ => true⟩

/-- `hist_defs["genA_lj_dR"]`: `Regular(50, 0, 2*pi)` on
`dR(objs["genAs"].p4, objs["ljs"].p4)`; no `evt_mask`. -/
def genA_lj_dR (d : Obj → Obj → ℚ) (hi : ℚ) : Histogram :=
  ⟨[(.regular 50 0 hi, .ragged fun e => dREvent d e.genAs e.ljs)],
   fun _ => true⟩

/-- `hist_defs["ljsource_charge"]`: `Integer(-1, 1)` on
`objs["ljsources"].charge`; no `evt_mask`. -/
def ljsource_charge : Histogram :=
  ⟨[(.integer (-1) 1,
     .ragged fun e => e.ljsources.map fun o => some (o.charge : ℚ))],
   fun _ => true⟩

/-- The declared category list of `hist_defs["ljsource_type"]`:
`IntCategory([2, 3, 4, 8])`. -/
def ljTypeVals : List ℤ := [2, 3, 4, 8]

/-- `hist_defs["ljsource_type"]`: `IntCategory([2, 3, 4, 8])` on
`objs["ljsources"]["type"]`; no `evt_mask`. -/
def ljsource_type : Histogram :=
  ⟨[(.intCategory ljTypeVals,
     .ragged fun e => e.ljsources.map fun o => some (o.typ : ℚ))],
   fun _ => true⟩

/-- The keys of the `hist_defs` dictionary literal, in source order
(`src/sidm/definitions/hists.py`, lines 22–711; the commented-out entries
`mu_ljs_n` and `egm_ljs_n` are not keys of the literal). -/
def histNames : List String :=
  ["pv_n", "pv_ndof", "pv_z", "pv_rho",
   "electron_n", "electron_pt", "electron_eta_phi",
   "photon_n", "photon_pt", "photon_eta_phi",
   "muon_n", "muon_pt", "muon_eta_phi",
   "dsaMuon_n", "dsaMuon_pt", "dsaMuon_eta_phi",
   "lj_n", "lj_pt", "lj_pfIsolation05",
   "lj0_pfIsolation05", "lj1_pfIsolation05",
   "lj_pfIsolationPtNoPU05", "lj_pfIsolationPt05",
   "lj_pfIsolation07", "lj_pfIsolationPtNoPU07", "lj_pfIsolationPt07",
   "lj_pfiso", "lj0_pt", "lj1_pt", "lj0_e", "lj1_e", "lj_eta_phi",
   "egm_lj_pt", "mu_lj_pt",
   "lj_electronN", "lj_photonN", "lj_electronPhotonN", "lj_muonN",
   "ljsource_n", "ljsource_pt", "ljsource_eta_phi",
   "ljsource_charge", "ljsource_type",
   "electron_lj_dR", "electron_lj_dR_lowRange",
   "photon_lj_dR", "photon_lj_dR_lowRange", "photon_lj_dR_reallyLowRange",
   "muon_lj_dR", "muon_lj_dR_lowRange",
   "dsaMuon_lj_dR", "dsaMuon_lj_dR_lowRange",
   "lj_lj_absdphi", "lj_lj_invmass", "lj_lj_invmass_lowRange",
   "abcd_lj_lj_dphi_vs_lj0_pfIsolationPt05",
   "gen_abspid",
   "genE_pt", "genE_pt_highRange",
   "genE0_pt", "genE1_pt", "genE0_pt_highRange", "genE1_pt_highRange",
   "genE_genE_dR", "genE_genE_pt",
   "genMu_pt", "genMu_pt_highRange",
   "genMu0_pt", "genMu1_pt", "genMu0_pt_highRange", "genMu1_pt_highRange",
   "genMu_genMu_dR", "genMu_genMu_pt",
   "genA_n", "genA_toMu_n", "genA_toE_n",
   "genA_lxy", "genAs_toMu_lxy",
   "genA_pt", "genA_pt_highRange", "genA_eta_phi",
   "genA_genA_dphi",
   "genA_lj_dR", "genA_lj_dR_lowRange",
   "lj_genA_ptRatio", "egm_lj_genA_ptRatio", "mu_lj_genA_ptRatio",
   "matched_genA_n", "matched_lj_n",
   "matched_genA_mu_n", "matched_genA_egm_n",
   "matched_genA_lxy", "matched_genA_mu_lxy", "matched_genA_egm_lxy"]

/-! ### Basic lemmas about the engine -/

@[simp]
theorem exBind_ok (a : α) (f : α → Except String β) : exBind (.ok a) f = f a := rfl

@[simp]
theorem exBind_error (m : String) (f : α → Except String β) :
    exBind (.error m) f = .error m := rfl

@[simp]
theorem fillBatch_nil (h : Histogram) (w : ℚ) : fillBatch h w [] = .ok [] := rfl

theorem fillBatch_cons (h : Histogram) (w : ℚ) (e : Event) (es : List Event) :
    fillBatch h w (e :: es) =
      exBind (if h.evtMask e then fillEvent h.axes e w else .ok []) fun ent =>
      exBind (fillBatch h w es) fun rest => .ok (ent ++ rest) := rfl

/-- Events failing the mask contribute nothing: filling the mask-filtered
batch gives the same result as filling the whole batch. -/
theorem fillBatch_filter (h : Histogram) (w : ℚ) (b : List Event) :
    fillBatch h w (b.filter h.evtMask) = fillBatch h w b := by
  induction b with
  | nil => rfl
  | cons e es ih =>
    by_cases hm : h.evtMask e
    · rw [List.filter_cons_of_pos hm, fillBatch_cons, fillBatch_cons, if_pos hm, ih]
    · rw [List.filter_cons_of_neg (by simpa using hm), fillBatch_cons,
        if_neg hm, exBind_ok, ih]
      cases fillBatch h w es with
      | error m => rfl
      | ok r => simp

/-- Filling a concatenated batch concatenates the entries of the parts. -/
theorem fillBatch_append {h : Histogram} {w : ℚ} {A B : List Event}
    {ea eb : List Entry} (hA : fillBatch h w A = .ok ea)
    (hB : fillBatch h w B = .ok eb) :
    fillBatch h w (A ++ B) = .ok (ea ++ eb) := by
  induction A generalizing ea with
  | nil =>
    rw [fillBatch_nil] at hA
    cases hA
    simpa using hB
  | cons e es ih =>
    rw [fillBatch_cons] at hA
    simp only [List.cons_append]
    rw [fillBatch_cons]
    cases hhead : (if h.evtMask e then fillEvent h.axes e w else .ok []) with
    | error m => rw [hhead] at hA; simp at hA
    | ok ent =>
      rw [hhead] at hA
      rw [exBind_ok] at hA ⊢
      cases hrest : fillBatch h w es with
      | error m => rw [hrest] at hA; simp at hA
      | ok r =>
        rw [hrest, exBind_ok] at hA
        cases hA
        rw [ih hrest, exBind_ok, List.append_assoc]

/-- Replacing a `List.getD`-over-`range` traversal by a direct map. -/
theorem range_map_getD (xs : List α) (g : α → β) (d : α) :
    (List.range xs.length).map (fun i => g (xs.getD i d)) = xs.map g := by
  apply List.ext_getElem
  · simp
  · intro n h1 h2
    simp only [List.getElem_map, List.getElem_range]
    rw [List.getD_eq_getElem?_getD, List.getElem?_eq_getElem (by simpa using h2),
      Option.getD_some]

/-- A histogram with one ragged axis fills one entry per sub-object, in
source order, and never fails. -/
theorem fillEvent_single_ragged (β : Binning) (f : Event → List (Option ℚ))
    (e : Event) (w : ℚ) :
    fillEvent [(β, .ragged f)] e w = .ok ((f e).map fun v => ([binIndex β v], w)) := by
  have h : fillEvent [(β, .ragged f)] e w =
      .ok ((List.range (f e).length).map fun i => ([binIndex β ((f e).getD i none)], w)) := rfl
  rw [h, range_map_getD (f e) (fun v => ([binIndex β v], w)) none]

/-- A histogram with two ragged axes of equal per-event inner length fills
one entry per position, pairing the two axes positionally. -/
theorem fillEvent_two_ragged (β1 β2 : Binning) (f1 f2 : Event → List (Option ℚ))
    (e : Event) (w : ℚ) (hlen : (f2 e).length = (f1 e).length) :
    fillEvent [(β1, .ragged f1), (β2, .ragged f2)] e w =
      .ok ((List.range (f1 e).length).map fun i =>
        ([binIndex β1 ((f1 e).getD i none), binIndex β2 ((f2 e).getD i none)], w)) := by
  have h1 : evalAxes e ([(β1, AxisFn.ragged f1), (β2, AxisFn.ragged f2)].map fun a => a.2) =
      .ok [.many (f1 e), .many (f2 e)] := rfl
  have h2 : alignEvent [.many (f1 e), .many (f2 e)] = .ok [f1 e, f2 e] := by
    have hr : raggedLens [.many (f1 e), .many (f2 e)] =
        [(f1 e).length, (f2 e).length] := rfl
    unfold alignEvent
    rw [hr]
    simp [hlen]
  show exBind (evalAxes e _) _ = _
  rw [h1, exBind_ok, h2, exBind_ok]
  rfl

/-- A mask-dependent selection axis on an event whose collection holds the
selected position produces exactly one entry. -/
theorem fillEvent_maskSel_of_get (β : Binning) (k : ℕ)
    (f : Event → List (Option ℚ)) (e : Event) (w : ℚ) (v : Option ℚ)
    (hv : (f e).get? k = some v) :
    fillEvent [(β, .maskSel k f)] e w = .ok [([binIndex β v], w)] := by
  have h1 : evalAxes e ([(β, AxisFn.maskSel k f)].map fun a => a.2) =
      .ok [.one v] := by
    simp only [List.map, evalAxes, evalAxis, hv]
    rfl
  show exBind (evalAxes e _) _ = _
  rw [h1, exBind_ok]
  rfl

/-- A mask-dependent selection axis on an event whose collection is too short
raises the `IndexError` failure — no placeholder is produced. -/
theorem fillEvent_maskSel_err (β : Binning) (k : ℕ)
    (f : Event → List (Option ℚ)) (e : Event) (w : ℚ)
    (hv : (f e).get? k = none) :
    fillEvent [(β, .maskSel k f)] e w = .error "IndexError" := by
  have h1 : evalAxes e ([(β, AxisFn.maskSel k f)].map fun a => a.2) =
      .error "IndexError" := by
    simp only [List.map, evalAxes, evalAxis, hv]
    rfl
  show exBind (evalAxes e _) _ = _
  rw [h1, exBind_error]

/-- Two ragged axes whose inner lengths disagree make the alignment step
fail fast with the configuration error (spec §4.3 step 4). -/
theorem alignEvent_mismatch {rs : List RawVal} {vs1 vs2 : List (Option ℚ)}
    (h1 : RawVal.many vs1 ∈ rs) (h2 : RawVal.many vs2 ∈ rs)
    (hne : vs1.length ≠ vs2.length) :
    alignEvent rs = .error "ConfigurationError: ragged axes with mismatched inner lengths" := by
  have m1 : vs1.length ∈ raggedLens rs := by
    apply List.mem_filterMap.mpr
    exact ⟨.many vs1, h1, rfl⟩
  have m2 : vs2.length ∈ raggedLens rs := by
    apply List.mem_filterMap.mpr
    exact ⟨.many vs2, h2, rfl⟩
  unfold alignEvent
  cases hL : raggedLens rs with
  | nil => rw [hL] at m1; cases m1
  | cons L Ls =>
    rw [hL] at m1 m2
    have hall : ¬(Ls.all fun l => l == L) = true := by
      intro hall
      have heq : ∀ x ∈ L :: Ls, x = L := by
        intro x hx
        rcases List.mem_cons.mp hx with rfl | hx'
        · rfl
        · exact eq_of_beq (List.all_eq_true.mp hall x hx')
      exact hne ((heq _ m1).trans (heq _ m2).symm)
    exact if_neg hall

/-! ### Minimum lemmas for the nearest-match machinery -/

theorem foldl_min_le_init (xs : List ℚ) (a : ℚ) : xs.foldl min a ≤ a := by
  induction xs generalizing a with
  | nil => exact le_refl a
  | cons x xs ih => exact le_trans (ih (min a x)) (min_le_left a x)

theorem foldl_min_le_mem {x : ℚ} {xs : List ℚ} (hx : x ∈ xs) (a : ℚ) :
    xs.foldl min a ≤ x := by
  induction xs generalizing a with
  | nil => cases hx
  | cons y ys ih =>
    rcases List.mem_cons.mp hx with rfl | h
    · exact le_trans (foldl_min_le_init ys (min a x)) (min_le_right a x)
    · exact ih h (min a y)

theorem foldl_min_mem (xs : List ℚ) (a : ℚ) :
    xs.foldl min a = a ∨ xs.foldl min a ∈ xs := by
  induction xs generalizing a with
  | nil => exact Or.inl rfl
  | cons x xs ih =>
    rcases ih (min a x) with h | h
    · rw [List.foldl_cons, h]
      rcases min_choice a x with h2 | h2
      · exact Or.inl h2
      · right; rw [h2]; exact List.mem_cons_self _ _
    · exact Or.inr (List.mem_cons_of_mem _ h)

/-- `listMinQ` of a nonempty list is `some` of a genuine minimum: an element
of the list below every element. -/
theorem listMinQ_spec {xs : List ℚ} (h : xs ≠ []) :
    ∃ m, listMinQ xs = some m ∧ m ∈ xs ∧ ∀ x ∈ xs, m ≤ x := by
  cases xs with
  | nil => cases h rfl
  | cons x ys =>
    refine ⟨ys.foldl min x, rfl, ?_, ?_⟩
    · rcases foldl_min_mem ys x with h2 | h2
      · rw [h2]; exact List.mem_cons_self _ _
      · exact List.mem_cons_of_mem _ h2
    · intro y hy
      rcases List.mem_cons.mp hy with rfl | h3
      · exact foldl_min_le_init ys y
      · exact foldl_min_le_mem h3 x

/-! ### Storage lemmas -/

theorem fillStorage_append (e1 e2 : List Entry) (c : List BinIdx) :
    fillStorage (e1 ++ e2) c = mergeStorage (fillStorage e1) (fillStorage e2) c := by
  simp [fillStorage, mergeStorage, List.filter_append]

theorem mergeStorage_assoc_cell (s t u : Storage) (c : List BinIdx) :
    mergeStorage (mergeStorage s t) u c = mergeStorage s (mergeStorage t u) c := by
  simp [mergeStorage, add_assoc]

theorem mergeStorage_comm_cell (s t : Storage) (c : List BinIdx) :
    mergeStorage s t c = mergeStorage t s c := by
  unfold mergeStorage
  rw [add_comm (s c).1, add_comm (s c).2.1, add_comm (s c).2.2]

/-- The storage only depends on the multiset of entries: permuting the flat
entry list leaves every cell unchanged. -/
theorem fillStorage_perm {l1 l2 : List Entry} (h : l1.Perm l2) (c : List BinIdx) :
    fillStorage l1 c = fillStorage l2 c := by
  have hf : (l1.filter fun en => en.1 = c).Perm (l2.filter fun en => en.1 = c) :=
    h.filter _
  unfold fillStorage
  rw [(hf.map fun en => en.2).sum_eq, (hf.map fun en => en.2 * en.2).sum_eq,
    hf.length_eq]

/-! ### Category-binning lemmas -/

theorem catIndex_lt_length {v : ℤ} {vals : List ℤ} (h : v ∈ vals) :
    catIndex v vals < vals.length := by
  induction vals with
  | nil => cases h
  | cons x xs ih =>
    by_cases hx : x = v
    · simp [catIndex, hx]
    · have hv : v ∈ xs := by
        rcases List.mem_cons.mp h with rfl | h2
        · exact absurd rfl hx
        · exact h2
      simp only [catIndex, if_neg hx, List.length_cons]
      exact Nat.succ_lt_succ (ih hv)

theorem catIndex_inj {vals : List ℤ} {a b : ℤ} (ha : a ∈ vals) (hb : b ∈ vals)
    (hne : a ≠ b) : catIndex a vals ≠ catIndex b vals := by
  induction vals with
  | nil => cases ha
  | cons x xs ih =>
    by_cases hxa : x = a <;> by_cases hxb : x = b
    · exact absurd (hxa.symm.trans hxb) hne
    · subst hxa
      simp only [catIndex, if_pos rfl, if_neg hxb]
      exact fun h => Nat.succ_ne_zero _ h.symm
    · subst hxb
      simp only [catIndex, if_pos rfl, if_neg hxa]
      exact fun h => Nat.succ_ne_zero _ h
    · have ha2 : a ∈ xs := by
        rcases List.mem_cons.mp ha with rfl | h2
        · exact absurd rfl hxa
        · exact h2
      have hb2 : b ∈ xs := by
        rcases List.mem_cons.mp hb with rfl | h2
        · exact absurd rfl hxb
        · exact h2
      simp only [catIndex, if_neg hxa, if_neg hxb]
      exact fun hsucc => ih ha2 hb2 (Nat.succ_injective hsucc)

/-! ## Claims -/

/-- C7: for every Continuous binning specification over `[lo, hi)`, a value
equal to `lo` falls in bin 0, any value strictly below `lo` falls in the
underflow bin, any value at or above `hi` (including exactly `hi`) falls in
the overflow bin, and every value receives some bin — none is dropped. -/
theorem regular_binning_flow_policy (n : ℕ) (lo hi : ℚ) (hlt : lo < hi) :
    regularBin n lo hi lo = .bin 0 ∧
    (∀ v, v < lo → regularBin n lo hi v = .underflow) ∧
    (∀ v, hi ≤ v → regularBin n lo hi v = .overflow) ∧
    (∀ v, regularBin n lo hi v = .underflow ∨ regularBin n lo hi v = .overflow ∨
      ∃ i, regularBin n lo hi v = .bin i) := by
  refine ⟨?_, ?_, ?_, ?_⟩
  · unfold regularBin
    rw [if_neg (lt_irrefl lo), if_neg (not_le.mpr hlt)]
    simp
  · intro v hv
    unfold regularBin
    rw [if_pos hv]
  · intro v hv
    have hnl : ¬v < lo := not_lt.mpr (le_of_lt (lt_of_lt_of_le hlt hv))
    unfold regularBin
    rw [if_neg hnl, if_pos hv]
  · intro v
    unfold regularBin
    by_cases h1 : v < lo
    · rw [if_pos h1]; exact Or.inl rfl
    · rw [if_neg h1]
      by_cases h2 : hi ≤ v
      · rw [if_pos h2]; exact Or.inr (Or.inl rfl)
      · rw [if_neg h2]; exact Or.inr (Or.inr ⟨_, rfl⟩)

/-- Witness for C7, at the `pv_n` binning `Regular(50, 0, 100)`. -/
theorem regular_binning_flow_policy_witness :
    regularBin 50 0 100 0 = .bin 0 ∧ regularBin 50 0 100 (-1) = .underflow ∧
      regularBin 50 0 100 100 = .overflow :=
  ⟨(regular_binning_flow_policy 50 0 100 (by norm_num)).1,
   (regular_binning_flow_policy 50 0 100 (by norm_num)).2.1 (-1) (by norm_num),
   (regular_binning_flow_policy 50 0 100 (by norm_num)).2.2.1 100 (by norm_num)⟩

/-- C8: for every Category binning specification, each declared value maps to
its own bin (never the "other" bin), distinct declared values never collide,
every undeclared value maps to the single "other" bin (index `vals.length`),
and in particular the `ljsource_type` axis over `[2, 3, 4, 8]` behaves that
way for integer-valued fills. -/
theorem category_binning_exclusive (vals : List ℤ) (a b : ℤ) :
    (a ∈ vals → categoryBin vals a < vals.length) ∧
    (a ∈ vals → b ∈ vals → a ≠ b → categoryBin vals a ≠ categoryBin vals b) ∧
    (a ∉ vals → categoryBin vals a = vals.length) ∧
    (∀ v : ℤ, binIndex (.intCategory vals) (some (v : ℚ)) =
      .bin (categoryBin vals v)) := by
  refine ⟨?_, ?_, ?_, ?_⟩
  · intro ha
    unfold categoryBin
    rw [if_pos ha]
    exact catIndex_lt_length ha
  · intro ha hb hne
    unfold categoryBin
    rw [if_pos ha, if_pos hb]
    exact catIndex_inj ha hb hne
  · intro ha
    unfold categoryBin
    rw [if_neg ha]
  · intro v
    show BinIdx.bin (categoryBin vals ⌊(v : ℚ)⌋) = _
    rw [Int.floor_intCast]

/-- Witness for C8, at the `ljsource_type` category list `[2, 3, 4, 8]`. -/
theorem category_binning_exclusive_witness :
    categoryBin ljTypeVals 2 ≠ categoryBin ljTypeVals 3 ∧
      categoryBin ljTypeVals 5 = ljTypeVals.length ∧
      categoryBin ljTypeVals 2 < ljTypeVals.length :=
  ⟨(category_binning_exclusive ljTypeVals 2 3).2.1 (by decide) (by decide) (by decide),
   (category_binning_exclusive ljTypeVals 5 0).2.2.1 (by decide),
   (category_binning_exclusive ljTypeVals 2 0).1 (by decide)⟩

/-- C9: the registry maps each name to exactly one histogram definition —
the 94 keys of the `hist_defs` dictionary literal are pairwise distinct, so
the dictionary built from the static declaration list keeps every entry and
lookup of a name is unambiguous. -/
theorem registry_names_unique : histNames.Nodup ∧ histNames.length = 94 := by
  constructor
  · decide
  · rfl

/-- A single-ragged-axis histogram without a mask never fails and fills one
entry per sub-object of every event, in event order. -/
theorem fillBatch_single_ragged_ok (β : Binning) (f : Event → List (Option ℚ))
    (w : ℚ) (b : List Event) :
    fillBatch ⟨[(β, .ragged f)], fun _ => true⟩ w b =
      .ok (b.map fun e => (f e).map fun v => ([binIndex β v], w)).flatten := by
  induction b with
  | nil => rfl
  | cons e es ih =>
    show exBind (if true = true then fillEvent [(β, .ragged f)] e w else .ok []) _ = _
    rw [if_pos rfl, fillEvent_single_ragged, exBind_ok, ih, exBind_ok,
      List.map_cons, List.flatten_cons]

/-- C10: the `ljsource_charge` histogram bins charge with unit-width integer
bins over `[-1, 1)`: each source object contributes one entry binned at its
charge, charges `-1` and `0` land in the regular bins 0 and 1, and charge
`+1` (indeed any charge `≥ 1`) is routed to the overflow bin, never to a
regular bin. -/
theorem ljsource_charge_flow (v : ℤ) :
    (v = -1 → integerBin (-1) 1 (v : ℚ) = .bin 0) ∧
    (v = 0 → integerBin (-1) 1 (v : ℚ) = .bin 1) ∧
    (1 ≤ v → integerBin (-1) 1 (v : ℚ) = .overflow) ∧
    (∀ e w, fillEvent ljsource_charge.axes e w =
      .ok (e.ljsources.map fun o => ([integerBin (-1) 1 (o.charge : ℚ)], w))) := by
  refine ⟨?_, ?_, ?_, ?_⟩
  · rintro rfl
    unfold integerBin
    rw [if_neg (by norm_num), if_neg (by norm_num)]
    norm_num
  · rintro rfl
    unfold integerBin
    rw [if_neg (by norm_num), if_neg (by norm_num)]
    norm_num
  · intro hv
    unfold integerBin
    have h1 : ((1 : ℤ) : ℚ) ≤ (v : ℚ) := Int.cast_le.mpr hv
    rw [if_neg (by push_cast at h1 ⊢; linarith), if_pos (by push_cast at h1 ⊢; linarith)]
  · intro e w
    show fillEvent [(Binning.integer (-1) 1,
      AxisFn.ragged fun e => e.ljsources.map fun o => some (o.charge : ℚ))] e w = _
    rw [fillEvent_single_ragged]
    simp only [List.map_map]
    rfl

/-- Witness for C10: charges `-1`, `0`, `1` at the `Integer(-1, 1)` axis. -/
theorem ljsource_charge_flow_witness :
    integerBin (-1) 1 ((-1 : ℤ) : ℚ) = .bin 0 ∧
      integerBin (-1) 1 ((0 : ℤ) : ℚ) = .bin 1 ∧
      integerBin (-1) 1 ((1 : ℤ) : ℚ) = .overflow :=
  ⟨(ljsource_charge_flow (-1)).1 rfl, (ljsource_charge_flow 0).2.1 rfl,
   (ljsource_charge_flow 1).2.2.1 (le_refl 1)⟩

/-- C5: a ratio axis built on a nearest-match lookup never aborts a fill,
and an event whose secondary collection (`genAs`) is empty produces the
not-a-number sentinel for each of its primary objects (`ljs`), each of which
is routed to the overflow bin — the `UndefinedMatch` case is never fatal. -/
theorem ptRatio_empty_secondary :
    (∀ (d : Obj → Obj → ℚ) (w : ℚ) (b : List Event),
      ∃ ents, fillBatch (lj_genA_ptRatio d) w b = .ok ents) ∧
    (∀ (d : Obj → Obj → ℚ) (w : ℚ) (e : Event), e.genAs = [] →
      fillEvent (lj_genA_ptRatio d).axes e w =
        .ok (e.ljs.map fun _ => ([BinIdx.overflow], w))) := by
  constructor
  · intro d w b
    exact ⟨_, fillBatch_single_ragged_ok (.regular 50 0 2) (ptRatioEvent d) w b⟩
  · intro d w e hAs
    show fillEvent [(Binning.regular 50 0 2, AxisFn.ragged (ptRatioEvent d))] e w = _
    rw [fillEvent_single_ragged]
    unfold ptRatioEvent
    rw [hAs]
    simp only [List.map_map]
    rfl

/-- Witness for C5: a one-event batch with one lepton jet and no dark
photons fills exactly one overflow entry without raising. -/
theorem ptRatio_empty_secondary_witness :
    fillEvent (lj_genA_ptRatio fun _ _ => 0).axes ⟨[], [], [mkPt 5], [], []⟩ 1 =
      .ok ((⟨[], [], [mkPt 5], [], []⟩ : Event).ljs.map fun _ => ([BinIdx.overflow], 1)) :=
  ptRatio_empty_secondary.2 (fun _ _ => 0) 1 ⟨[], [], [mkPt 5], [], []⟩ rfl

/-- C6: a distance/nearest-match axis yields exactly one ragged value per
primary sub-object; the value for each primary object is the minimum over
that same event's secondary collection of the pairwise distances (a genuine
minimum: attained by some secondary object and below all of them); the
batch-level computation respects event boundaries (it splits over batch
concatenation, so no cross-event pair ever contributes); and the
`electron_lj_dR` registry entry fills exactly these values. -/
theorem dR_nearest_match_axis :
    (∀ (d : Obj → Obj → ℚ) (P S : List Obj), (dREvent d P S).length = P.length) ∧
    (∀ (d : Obj → Obj → ℚ) (P S : List Obj),
      dREvent d P S = P.map fun p => listMinQ (S.map fun s => d p s)) ∧
    (∀ (d : Obj → Obj → ℚ) (S : List Obj) (p : Obj), S ≠ [] →
      ∃ m, listMinQ (S.map fun s => d p s) = some m ∧
        (∃ s ∈ S, d p s = m) ∧ ∀ s ∈ S, m ≤ d p s) ∧
    (∀ (d : Obj → Obj → ℚ) (P1 S1 P2 S2 : List (List Obj)),
      P1.length = S1.length →
      dRBatch d (P1 ++ P2) (S1 ++ S2) = dRBatch d P1 S1 ++ dRBatch d P2 S2) ∧
    (∀ (d : Obj → Obj → ℚ) (hi : ℚ) (e : Event) (w : ℚ),
      fillEvent (electron_lj_dR d hi).axes e w =
        .ok ((dREvent d e.electrons e.ljs).map fun v =>
          ([binIndex (.regular 50 0 hi) v], w))) := by
  refine ⟨?_, ?_, ?_, ?_, ?_⟩
  · intro d P S
    unfold dREvent
    exact List.length_map P _
  · intro d P S
    rfl
  · intro d S p hS
    obtain ⟨m, hmin, hmem, hle⟩ :=
      listMinQ_spec (show (S.map fun s => d p s) ≠ [] by simpa using hS)
    refine ⟨m, hmin, ?_, ?_⟩
    · obtain ⟨s, hs, hds⟩ := List.mem_map.mp hmem
      exact ⟨s, hs, hds⟩
    · intro s hs
      exact hle _ (List.mem_map.mpr ⟨s, hs, rfl⟩)
  · intro d P1 S1 P2 S2 hlen
    unfold dRBatch
    rw [List.zip_append hlen, List.map_append]
  · intro d hi e w
    show fillEvent [(Binning.regular 50 0 hi,
      AxisFn.ragged fun e => dREvent d e.electrons e.ljs)] e w = _
    rw [fillEvent_single_ragged]

/-- Witness for C6: a two-element secondary collection with the metric
`d a b = a.pt * b.pt`, and a concrete two-event batch split. -/
theorem dR_nearest_match_axis_witness :
    (∃ m, listMinQ ([mkPt 3, mkPt 4].map fun s => (mkPt 2).pt * s.pt) = some m ∧
      (∃ s ∈ [mkPt 3, mkPt 4], (mkPt 2).pt * s.pt = m) ∧
      ∀ s ∈ [mkPt 3, mkPt 4], m ≤ (mkPt 2).pt * s.pt) ∧
    dRBatch (fun a b => a.pt * b.pt) ([[mkPt 1]] ++ [[mkPt 2]]) ([[mkPt 3]] ++ [[mkPt 4]]) =
      dRBatch (fun a b => a.pt * b.pt) [[mkPt 1]] [[mkPt 3]] ++
        dRBatch (fun a b => a.pt * b.pt) [[mkPt 2]] [[mkPt 4]] :=
  ⟨dR_nearest_match_axis.2.2.1 (fun a b => a.pt * b.pt) [mkPt 3, mkPt 4] (mkPt 2)
      (List.cons_ne_nil _ _),
   dR_nearest_match_axis.2.2.2.1 (fun a b => a.pt * b.pt) [[mkPt 1]] [[mkPt 3]]
      [[mkPt 2]] [[mkPt 4]] rfl⟩

@[simp]
theorem mkHist_axes (ax : List (Binning × AxisFn)) (m : Event → Bool) :
    (Histogram.mk ax m).axes = ax := rfl

@[simp]
theorem mkHist_evtMask (ax : List (Binning × AxisFn)) (m : Event → Bool) :
    (Histogram.mk ax m).evtMask = m := rfl

/-- Evaluating the empty-batch-size axis of `pv_n` on an empty event: one
entry in bin 0 (used as the concrete input of the C3 witness). -/
theorem pv_n_fill_single :
    fillBatch pv_n 1 [emptyEvent] = .ok [([BinIdx.bin 0], 1)] := by
  have h : fillBatch pv_n 1 [emptyEvent] =
      .ok [([regularBin 50 0 100 ((List.length ([] : List Obj) : ℕ) : ℚ)], 1)] := rfl
  have h1 : ((List.length ([] : List Obj) : ℕ) : ℚ) = 0 := by simp
  have h0 : regularBin 50 0 100 0 = .bin 0 := by
    unfold regularBin
    rw [if_neg (by norm_num), if_neg (by norm_num)]
    simp
  rw [h, h1, h0]

/-- C3: filling a whole batch equals filling its two parts separately and
concatenating; the storage built from the concatenated entries is the
cellwise merge of the two partial storages; the storage is insensitive to
the order of entries (so any partition of the same event set reproduces the
whole); and merge is associative and commutative cellwise. -/
theorem fill_merge_partition :
    (∀ (h : Histogram) (w : ℚ) (A B : List Event) (ea eb : List Entry),
      fillBatch h w A = .ok ea → fillBatch h w B = .ok eb →
      fillBatch h w (A ++ B) = .ok (ea ++ eb) ∧
      ∀ c, fillStorage (ea ++ eb) c =
        mergeStorage (fillStorage ea) (fillStorage eb) c) ∧
    (∀ (l1 l2 : List Entry), l1.Perm l2 →
      ∀ c, fillStorage l1 c = fillStorage l2 c) ∧
    (∀ (s t u : Storage) (c : List BinIdx),
      mergeStorage (mergeStorage s t) u c = mergeStorage s (mergeStorage t u) c) ∧
    (∀ (s t : Storage) (c : List BinIdx), mergeStorage s t c = mergeStorage t s c) :=
  ⟨fun _ _ _ _ ea eb hA hB => ⟨fillBatch_append hA hB, fillStorage_append ea eb⟩,
   fun _ _ hp => fillStorage_perm hp,
   mergeStorage_assoc_cell, mergeStorage_comm_cell⟩

/-- Witness for C3: a concrete two-event partition of `pv_n`, and a concrete
entry-list transposition. -/
theorem fill_merge_partition_witness :
    fillBatch pv_n 1 ([emptyEvent] ++ [emptyEvent]) =
      .ok ([([BinIdx.bin 0], 1)] ++ [([BinIdx.bin 0], 1)]) ∧
    (∀ c, fillStorage [([BinIdx.bin 0], 1), ([BinIdx.bin 1], 2)] c =
      fillStorage [([BinIdx.bin 1], 2), ([BinIdx.bin 0], 1)] c) :=
  ⟨(fill_merge_partition.1 pv_n 1 [emptyEvent] [emptyEvent] _ _
      pv_n_fill_single pv_n_fill_single).1,
   fun c => fill_merge_partition.2.1 _ _ (List.Perm.swap _ _ _) c⟩

/-- C2: the mask/axis multiplicity contract for `objs[coll][mask, k]` axes.
If the event-mask predicate guarantees every passing event at least `k+1`
objects, the fill succeeds on every batch (the index-error branch is
unreachable); if some passing event of a batch has `k` or fewer objects, the
fill fails with the `IndexError` failure, never a placeholder.  The registry
entries `lj0_pfIsolation05` and `lj1_pfIsolation05` satisfy the contract, so
their fills always succeed. -/
theorem maskSel_multiplicity_contract :
    (∀ (β : Binning) (k : ℕ) (f : Event → List (Option ℚ)) (msk : Event → Bool)
        (w : ℚ) (b : List Event),
      (∀ e ∈ b, msk e = true → k < (f e).length) →
      ∃ ents, fillBatch ⟨[(β, .maskSel k f)], msk⟩ w b = .ok ents) ∧
    (∀ (β : Binning) (k : ℕ) (f : Event → List (Option ℚ)) (msk : Event → Bool)
        (w : ℚ) (b : List Event) (e : Event),
      e ∈ b → msk e = true → (f e).length ≤ k →
      fillBatch ⟨[(β, .maskSel k f)], msk⟩ w b = .error "IndexError") ∧
    (∀ (w : ℚ) (b : List Event), ∃ ents,
      fillBatch lj0_pfIsolation05 w b = .ok ents) ∧
    (∀ (w : ℚ) (b : List Event), ∃ ents,
      fillBatch lj1_pfIsolation05 w b = .ok ents) := by
  have H1 : ∀ (β : Binning) (k : ℕ) (f : Event → List (Option ℚ))
      (msk : Event → Bool) (w : ℚ) (b : List Event),
      (∀ e ∈ b, msk e = true → k < (f e).length) →
      ∃ ents, fillBatch ⟨[(β, .maskSel k f)], msk⟩ w b = .ok ents := by
    intro β k f msk w b hgood
    induction b with
    | nil => exact ⟨[], rfl⟩
    | cons e es ih =>
      obtain ⟨ents, hents⟩ := ih fun x hx => hgood x (List.mem_cons_of_mem _ hx)
      by_cases hm : msk e
      · have hk : k < (f e).length := hgood e (List.mem_cons_self _ _) hm
        obtain ⟨v, hv⟩ : ∃ v, (f e).get? k = some v := ⟨_, List.get?_eq_get hk⟩
        have hstep : fillBatch ⟨[(β, .maskSel k f)], msk⟩ w (e :: es) =
            .ok ([([binIndex β v], w)] ++ ents) := by
          rw [fillBatch_cons]
          simp only [mkHist_axes, mkHist_evtMask]
          rw [if_pos hm, fillEvent_maskSel_of_get β k f e w v hv, exBind_ok, hents,
            exBind_ok]
        exact ⟨_, hstep⟩
      · have hstep : fillBatch ⟨[(β, .maskSel k f)], msk⟩ w (e :: es) =
            .ok (([] : List Entry) ++ ents) := by
          rw [fillBatch_cons]
          simp only [mkHist_axes, mkHist_evtMask]
          rw [if_neg hm, exBind_ok, hents, exBind_ok]
        exact ⟨_, hstep⟩
  refine ⟨H1, ?_, ?_, ?_⟩
  · intro β k f msk w b e he hm hlen
    induction b with
    | nil => cases he
    | cons a as ih =>
      rw [fillBatch_cons]
      simp only [mkHist_axes, mkHist_evtMask]
      rcases List.mem_cons.mp he with rfl | he2
      · rw [if_pos hm,
          fillEvent_maskSel_err β k f e w (List.get?_eq_none.mpr hlen), exBind_error]
      · have htail := ih he2
        by_cases hma : msk a
        · rw [if_pos hma]
          cases hget : (f a).get? k with
          | some v =>
            rw [fillEvent_maskSel_of_get β k f a w v hget, exBind_ok, htail,
              exBind_error]
          | none => rw [fillEvent_maskSel_err β k f a w hget, exBind_error]
        · rw [if_neg hma, exBind_ok, htail, exBind_error]
  · intro w b
    exact H1 _ 0 _ _ w b fun e _ hm => by
      simpa using of_decide_eq_true hm
  · intro w b
    exact H1 _ 1 _ _ w b fun e _ hm => by
      simpa using of_decide_eq_true hm

/-- Witness for C2: `lj0_pfIsolation05` succeeds on a one-lepton-jet event,
while a subleading-index axis (`k = 1`) whose mask only requires one object
fails with the `IndexError` failure on the same event. -/
theorem maskSel_multiplicity_contract_witness :
    (∃ ents, fillBatch lj0_pfIsolation05 1 [⟨[], [], [mkPt 5], [], []⟩] = .ok ents) ∧
    fillBatch ⟨[(.regular 80 0 (4/5),
        .maskSel 1 fun e => e.ljs.map fun o => some o.pfIsolation05)],
      fun e => 0 < e.ljs.length⟩ 1 [⟨[], [], [mkPt 5], [], []⟩] =
      .error "IndexError" :=
  ⟨maskSel_multiplicity_contract.2.2.1 1 [⟨[], [], [mkPt 5], [], []⟩],
   maskSel_multiplicity_contract.2.1 _ 1 _ _ 1 _ ⟨[], [], [mkPt 5], [], []⟩
     (List.mem_cons_self _ _) rfl (by simp [mkPt])⟩

/-- A masked-selection histogram whose mask guarantees the selected position
fills exactly one entry per passing event. -/
theorem fillBatch_maskSel_count (β : Binning) (k : ℕ)
    (f : Event → List (Option ℚ)) (msk : Event → Bool) (w : ℚ)
    (hgood : ∀ e, msk e = true → k < (f e).length) (b : List Event) :
    ∃ ents, fillBatch ⟨[(β, .maskSel k f)], msk⟩ w b = .ok ents ∧
      ents.length = (b.filter msk).length := by
  induction b with
  | nil => exact ⟨[], rfl, rfl⟩
  | cons e es ih =>
    obtain ⟨ents, hents, hcount⟩ := ih
    by_cases hm : msk e
    · obtain ⟨v, hv⟩ : ∃ v, (f e).get? k = some v := ⟨_, List.get?_eq_get (hgood e hm)⟩
      have hstep : fillBatch ⟨[(β, .maskSel k f)], msk⟩ w (e :: es) =
          .ok ([([binIndex β v], w)] ++ ents) := by
        rw [fillBatch_cons]
        simp only [mkHist_axes, mkHist_evtMask]
        rw [if_pos hm, fillEvent_maskSel_of_get β k f e w v hv, exBind_ok, hents,
          exBind_ok]
      refine ⟨_, hstep, ?_⟩
      rw [List.filter_cons_of_pos hm]
      simp [hcount]
    · have hstep : fillBatch ⟨[(β, .maskSel k f)], msk⟩ w (e :: es) =
          .ok (([] : List Entry) ++ ents) := by
        rw [fillBatch_cons]
        simp only [mkHist_axes, mkHist_evtMask]
        rw [if_neg hm, exBind_ok, hents, exBind_ok]
      refine ⟨_, hstep, ?_⟩
      rw [List.filter_cons_of_neg (by simpa using hm)]
      simpa using hcount

/-- The three-event batch of the C1 concrete scenario: per-event `ljs`
counts `[0, 1, 2]`, with leading pT values 5 and 7 and subleading pT 3. -/
def batch3 : List Event :=
  [⟨[], [], [], [], []⟩, ⟨[], [], [mkPt 5], [], []⟩, ⟨[], [], [mkPt 7, mkPt 3], [], []⟩]

theorem regularBin_100_at_5 : regularBin 100 0 100 5 = .bin 5 := by
  unfold regularBin
  rw [if_neg (by norm_num), if_neg (by norm_num),
    show ((5 : ℚ) - 0) * ((100 : ℕ) : ℚ) / (100 - 0) = 5 by push_cast; norm_num]
  norm_num
  rfl

theorem regularBin_100_at_7 : regularBin 100 0 100 7 = .bin 7 := by
  unfold regularBin
  rw [if_neg (by norm_num), if_neg (by norm_num),
    show ((7 : ℚ) - 0) * ((100 : ℕ) : ℚ) / (100 - 0) = 7 by push_cast; norm_num]
  norm_num
  rfl

theorem regularBin_100_at_3 : regularBin 100 0 100 3 = .bin 3 := by
  unfold regularBin
  rw [if_neg (by norm_num), if_neg (by norm_num),
    show ((3 : ℚ) - 0) * ((100 : ℕ) : ℚ) / (100 - 0) = 3 by push_cast; norm_num]
  norm_num
  rfl

/-- C1: for the leading/subleading-pT histograms, events with too few lepton
jets contribute zero entries — dropping them from the batch leaves the fill
unchanged, and the entry count equals the number of passing events.  On the
concrete batch with `ljs` counts `[0, 1, 2]` and leading pT values 5 and 7:
`lj0_pt` (mask `count > 0`) yields exactly the two entries binned at 5 and 7,
and `lj1_pt` (mask `count > 1`) yields exactly one entry, from event 2. -/
theorem leading_index_mask_coupling :
    (∀ (w : ℚ) (b : List Event),
      fillBatch lj0_pt w (b.filter lj0_pt.evtMask) = fillBatch lj0_pt w b) ∧
    (∀ (w : ℚ) (b : List Event),
      fillBatch lj1_pt w (b.filter lj1_pt.evtMask) = fillBatch lj1_pt w b) ∧
    (∀ (w : ℚ) (b : List Event), ∃ ents, fillBatch lj0_pt w b = .ok ents ∧
      ents.length = (b.filter lj0_pt.evtMask).length) ∧
    (∀ (w : ℚ) (b : List Event), ∃ ents, fillBatch lj1_pt w b = .ok ents ∧
      ents.length = (b.filter lj1_pt.evtMask).length) ∧
    fillBatch lj0_pt 1 batch3 = .ok [([.bin 5], 1), ([.bin 7], 1)] ∧
    fillBatch lj1_pt 1 batch3 = .ok [([.bin 3], 1)] := by
  refine ⟨fun w b => fillBatch_filter lj0_pt w b,
    fun w b => fillBatch_filter lj1_pt w b, ?_, ?_, ?_, ?_⟩
  · intro w b
    exact fillBatch_maskSel_count _ 0 _ _ w
      (fun e hm => by simpa using of_decide_eq_true hm) b
  · intro w b
    exact fillBatch_maskSel_count _ 1 _ _ w
      (fun e hm => by simpa using of_decide_eq_true hm) b
  · have h : fillBatch lj0_pt 1 batch3 =
        .ok [([regularBin 100 0 100 (mkPt 5).pt], 1),
             ([regularBin 100 0 100 (mkPt 7).pt], 1)] := rfl
    rw [h, show (mkPt 5).pt = 5 from rfl, show (mkPt 7).pt = 7 from rfl,
      regularBin_100_at_5, regularBin_100_at_7]
  · have h : fillBatch lj1_pt 1 batch3 =
        .ok [([regularBin 100 0 100 (mkPt 3).pt], 1)] := rfl
    rw [h, show (mkPt 3).pt = 3 from rfl, regularBin_100_at_3]

/-- C4: multi-axis ragged alignment.  If two ragged axes of one histogram
disagree on an event's inner length, the alignment step (and hence the fill
of that event) fails fast with the descriptive configuration error — nothing
is truncated, zipped short, or dropped.  When all ragged axes view the same
underlying collection, as in the registry's `electron_eta_phi`, the fill
always succeeds, every entry carries exactly one value per axis, and the
number of entries is the total electron count of the batch (the flattened
vectors of both axes have equal length, in 1:1 positional correspondence). -/
theorem ragged_alignment_contract :
    (∀ (rs : List RawVal) (vs1 vs2 : List (Option ℚ)),
      RawVal.many vs1 ∈ rs → RawVal.many vs2 ∈ rs → vs1.length ≠ vs2.length →
      alignEvent rs =
        .error "ConfigurationError: ragged axes with mismatched inner lengths") ∧
    (∀ (β1 β2 : Binning) (f1 f2 : Event → List (Option ℚ)) (e : Event) (w : ℚ),
      (f1 e).length ≠ (f2 e).length →
      fillEvent [(β1, .ragged f1), (β2, .ragged f2)] e w =
        .error "ConfigurationError: ragged axes with mismatched inner lengths") ∧
    (∀ (pl ph : ℚ) (w : ℚ) (b : List Event), ∃ ents,
      fillBatch (electron_eta_phi pl ph) w b = .ok ents ∧
      ents.length = (b.map fun e => e.electrons.length).sum ∧
      ∀ en ∈ ents, en.1.length = 2) := by
  refine ⟨fun _ _ _ h1 h2 hne => alignEvent_mismatch h1 h2 hne, ?_, ?_⟩
  · intro β1 β2 f1 f2 e w hne
    have h1 : evalAxes e ([(β1, AxisFn.ragged f1), (β2, AxisFn.ragged f2)].map
        fun a => a.2) = .ok [.many (f1 e), .many (f2 e)] := rfl
    have h2 : alignEvent [RawVal.many (f1 e), RawVal.many (f2 e)] =
        .error "ConfigurationError: ragged axes with mismatched inner lengths" :=
      alignEvent_mismatch (List.mem_cons_self _ _)
        (List.mem_cons_of_mem _ (List.mem_cons_self _ _)) hne
    show exBind (evalAxes e _) _ = _
    rw [h1, exBind_ok, h2, exBind_error]
  · intro pl ph w b
    induction b with
    | nil => exact ⟨[], rfl, rfl, by intro en hen; cases hen⟩
    | cons e es ih =>
      obtain ⟨ents, hents, hcount, htwo⟩ := ih
      have hlen : ((fun e : Event => e.electrons.map fun o => some o.phi) e).length =
          ((fun e : Event => e.electrons.map fun o => some o.eta) e).length := by
        simp
      have hev := fillEvent_two_ragged (.regular 50 (-3) 3) (.regular 50 pl ph)
        (fun e => e.electrons.map fun o => some o.eta)
        (fun e => e.electrons.map fun o => some o.phi) e w hlen
      have hstep : fillBatch (electron_eta_phi pl ph) w (e :: es) =
          .ok (((List.range (e.electrons.map fun o => some o.eta).length).map fun i =>
            ([binIndex (.regular 50 (-3) 3)
                ((e.electrons.map fun o => some o.eta).getD i none),
              binIndex (.regular 50 pl ph)
                ((e.electrons.map fun o => some o.phi).getD i none)], w)) ++ ents) := by
        rw [fillBatch_cons]
        show exBind (if true = true then fillEvent _ e w else .ok []) _ = _
        rw [if_pos rfl]
        show exBind (fillEvent [(Binning.regular 50 (-3) 3,
          AxisFn.ragged fun e => e.electrons.map fun o => some o.eta),
          (Binning.regular 50 pl ph,
           AxisFn.ragged fun e => e.electrons.map fun o => some o.phi)] e w) _ = _
        rw [hev, exBind_ok, hents, exBind_ok]
      refine ⟨_, hstep, ?_, ?_⟩
      · simp [hcount]
      · intro en hen
        rcases List.mem_append.mp hen with hen1 | hen2
        · obtain ⟨i, _, rfl⟩ := List.mem_map.mp hen1
          rfl
        · exact htwo en hen2

/-- Witness for C4: a two-ragged-axis histogram over mismatched inner
lengths (1 vs 2) fails fast with the configuration error. -/
theorem ragged_alignment_contract_witness :
    alignEvent [RawVal.many [some 1], RawVal.many [some 1, some 2]] =
      .error "ConfigurationError: ragged axes with mismatched inner lengths" ∧
    fillEvent [(Binning.regular 50 (-3) 3, AxisFn.ragged fun _ => [some 1]),
        (Binning.regular 50 0 1, AxisFn.ragged fun _ => [some 1, some 2])]
      emptyEvent 1 =
      .error "ConfigurationError: ragged axes with mismatched inner lengths" :=
  ⟨ragged_alignment_contract.1 _ [some 1] [some 1, some 2]
      (List.mem_cons_self _ _) (List.mem_cons_of_mem _ (List.mem_cons_self _ _))
      (by simp),
   ragged_alignment_contract.2.1 _ _ (fun _ => [some 1])
      (fun _ => [some 1, some 2]) emptyEvent 1 (by simp)⟩

end SIDM
